import Mathlib

/-!
Verification of the smart-led-pio-sr driver core: the 8×8 bit-matrix
transpose (`matrix_transpose`), the frame-buffer assembly performed by
`PioWs2812SR::write`, the construction-time configuration computed by
`PioWs2812SR::new`, and the PIO microprogram executed by the state machine.
Machine integers are modelled as `Nat` with explicit `% 2^32` where the
32-bit wrap matters and `% 256` at the `as u8` casts.
-/

namespace SmartLedPioSR

/-- One RGB pixel (`smart_leds::RGB8`): three 8-bit channels held as `Nat`. -/
structure RGB8 where
  r : Nat
  g : Nat
  b : Nat
deriving Repr, DecidableEq

/-- An 8-entry byte array `[u8; 8]`, the input/output type of `matrix_transpose`. -/
structure Bytes8 where
  e0 : Nat
  e1 : Nat
  e2 : Nat
  e3 : Nat
  e4 : Nat
  e5 : Nat
  e6 : Nat
  e7 : Nat
deriving Repr, DecidableEq

/-- Indexing `a[i]` for `i < 8` (out-of-range reads return 0; the code never does one). -/
def Bytes8.get (a : Bytes8) : Nat → Nat
  | 0 => a.e0
  | 1 => a.e1
  | 2 => a.e2
  | 3 => a.e3
  | 4 => a.e4
  | 5 => a.e5
  | 6 => a.e6
  | 7 => a.e7
  | _ + 8 => 0

/-- Array update `a[i] = v` for `i < 8` (out-of-range writes are dropped;
the code's writes are proved in-bounds separately). -/
def Bytes8.set (a : Bytes8) : Nat → Nat → Bytes8
  | 0, v => { a with e0 := v }
  | 1, v => { a with e1 := v }
  | 2, v => { a with e2 := v }
  | 3, v => { a with e3 := v }
  | 4, v => { a with e4 := v }
  | 5, v => { a with e5 := v }
  | 6, v => { a with e6 := v }
  | 7, v => { a with e7 := v }
  | _ + 8, _ => a

/-- The all-zero array `[0; 8]`. -/
def Bytes8.zero : Bytes8 := ⟨0, 0, 0, 0, 0, 0, 0, 0⟩

/-- The 8 entries in index order, as iterated by `for i in c`. -/
def Bytes8.toList (a : Bytes8) : List Nat :=
  [a.e0, a.e1, a.e2, a.e3, a.e4, a.e5, a.e6, a.e7]

/-- `matrix_transpose` from src/lib.rs lines 81–110: packs the 8 bytes into
two u32 words, performs three delta-swap steps, and unpacks.  `<<<`/`>>>`
are u32 shifts (`% 2^32` where the shift can carry out of 32 bits) and the
final `as u8` casts are `% 256`. -/
def matrix_transpose (a : Bytes8) : Bytes8 :=
  let x := (a.e0 <<< 24) ||| (a.e1 <<< 16) ||| (a.e2 <<< 8) ||| a.e3
  let y := (a.e4 <<< 24) ||| (a.e5 <<< 16) ||| (a.e6 <<< 8) ||| a.e7
  let t1 := (x ^^^ (x >>> 7)) &&& 0x00AA00AA
  let x1 := x ^^^ t1 ^^^ ((t1 <<< 7) % 2 ^ 32)
  let u1 := (y ^^^ (y >>> 7)) &&& 0x00AA00AA
  let y1 := y ^^^ u1 ^^^ ((u1 <<< 7) % 2 ^ 32)
  let t2 := (x1 ^^^ (x1 >>> 14)) &&& 0x0000CCCC
  let x2 := x1 ^^^ t2 ^^^ ((t2 <<< 14) % 2 ^ 32)
  let u2 := (y1 ^^^ (y1 >>> 14)) &&& 0x0000CCCC
  let y2 := y1 ^^^ u2 ^^^ ((u2 <<< 14) % 2 ^ 32)
  let t3 := (x2 &&& 0xF0F0F0F0) ||| ((y2 >>> 4) &&& 0x0F0F0F0F)
  let y3 := (((x2 <<< 4) % 2 ^ 32) &&& 0xF0F0F0F0) ||| (y2 &&& 0x0F0F0F0F)
  let x3 := t3
  ⟨(x3 >>> 24) % 2 ^ 8, (x3 >>> 16) % 2 ^ 8, (x3 >>> 8) % 2 ^ 8, x3 % 2 ^ 8,
   (y3 >>> 24) % 2 ^ 8, (y3 >>> 16) % 2 ^ 8, (y3 >>> 8) % 2 ^ 8, y3 % 2 ^ 8⟩

/-! ### Pipeline decomposition of `matrix_transpose`

The transpose body is a composition of a byte-packing step, two delta-swap
steps on each word, and a nibble-mixing step.  The named functions below are
definitionally equal to the corresponding parts of `matrix_transpose`'s body
(`matrix_transpose_pipeline` is proved by `rfl`); they exist to let the bit
lemmas be stated compositionally. -/

/-- Pack four bytes into a u32, high byte first (lines 86–87). -/
def pack4 (b0 b1 b2 b3 : Nat) : Nat :=
  (b0 <<< 24) ||| (b1 <<< 16) ||| (b2 <<< 8) ||| b3

/-- One delta-swap step `t = (v ^ (v >> d)) & m; v = v ^ t ^ (t << d)`
(lines 89–93), with the u32 wrap of the left shift made explicit. -/
def dsStep (d m v : Nat) : Nat :=
  v ^^^ ((v ^^^ (v >>> d)) &&& m) ^^^ ((((v ^^^ (v >>> d)) &&& m) <<< d) % 2 ^ 32)

/-- The nibble-mix producing the new `x` (line 95). -/
def mixT (x y : Nat) : Nat :=
  (x &&& 0xF0F0F0F0) ||| ((y >>> 4) &&& 0x0F0F0F0F)

/-- The nibble-mix producing the new `y` (line 96). -/
def mixY (x y : Nat) : Nat :=
  (((x <<< 4) % 2 ^ 32) &&& 0xF0F0F0F0) ||| (y &&& 0x0F0F0F0F)

/-! ### Frame-buffer assembly (`PioWs2812SR::write`, lines 164–226) -/

/-- The `for c in 0..C { r[7-c] = f c; }` loop over a zero-initialised array.
`none` models the panic of the `7 - c` usize subtraction when `c > 7`
(in the code this can only happen when `C > 8`). -/
def fillLanes (f : Nat → Nat) : Nat → Option Bytes8
  | 0 => some Bytes8.zero
  | c + 1 =>
    match fillLanes f c with
    | none => none
    | some a => if c ≤ 7 then some (a.set (7 - c) (f c)) else none

/-- Closed form of `fillLanes` for `C ≤ 8`: entry `7 - c` holds lane `c`
for `c < C`, every other entry is zero. -/
def fillSpec (C : Nat) (f : Nat → Nat) : Bytes8 :=
  ⟨if 7 < C then f 7 else 0, if 6 < C then f 6 else 0, if 5 < C then f 5 else 0,
   if 4 < C then f 4 else 0, if 3 < C then f 3 else 0, if 2 < C then f 2 else 0,
   if 1 < C then f 1 else 0, if 0 < C then f 0 else 0⟩

/-- The output buffer together with the running `word_index`. -/
structure BufState where
  buf : List Nat
  word_index : Nat
deriving Repr, DecidableEq

/-- `words[word_index] = (i as u32) << 24; word_index += 1` (lines 220–222).
`none` models the index-out-of-bounds panic. -/
def pushByte (s : BufState) (b : Nat) : Option BufState :=
  if s.word_index < s.buf.length then
    some ⟨s.buf.set s.word_index ((b <<< 24) % 2 ^ 32), s.word_index + 1⟩
  else none

/-- `for i in c { ... }` over one transposed channel array (lines 219–223). -/
def pushBytes (s : BufState) (bs : Bytes8) : Option BufState :=
  bs.toList.foldlM pushByte s

/-- The body of the outer `for i in 0..N` loop for a single LED `i`
(lines 170–224): fill and transpose the three channel arrays and append
the 24 words in channel order `[g, r, b]`. -/
def pushLed (C : Nat) (pix : Nat → RGB8) (s : BufState) : Option BufState :=
  (fillLanes (fun c => (pix c).r) C).bind fun rA =>
  (fillLanes (fun c => (pix c).g) C).bind fun gA =>
  (fillLanes (fun c => (pix c).b) C).bind fun bA =>
  (pushBytes s (matrix_transpose gA)).bind fun s1 =>
  (pushBytes s1 (matrix_transpose rA)).bind fun s2 =>
  pushBytes s2 (matrix_transpose bA)

/-- `for i in 0..N` with `k` iterations remaining, current LED index `i`. -/
def writeLeds (C : Nat) (colors : Nat → Nat → RGB8) : Nat → Nat → BufState → Option BufState
  | 0, _, s => some s
  | k + 1, i, s =>
    (pushLed C (fun c => colors c i) s).bind (writeLeds C colors k (i + 1))

/-- The buffer-building part of `PioWs2812SR::write` (lines 164–226):
`let mut words = [0u32; 8*N*3]; let mut word_index = 0;` then the LED loop. -/
def PioWs2812SR_write (N C : Nat) (colors : Nat → Nat → RGB8) : Option BufState :=
  writeLeds C colors N 0 ⟨List.replicate (8 * N * 3) 0, 0⟩

/-- The 8 transmission words of one transposed channel array, in append order. -/
def channelWords (bs : Bytes8) : List Nat :=
  bs.toList.map (fun b => (b <<< 24) % 2 ^ 32)

/-- The 24 transmission words of one LED, channels in order `g, r, b`. -/
def ledWordsSpec (C : Nat) (pix : Nat → RGB8) : List Nat :=
  channelWords (matrix_transpose (fillSpec C (fun c => (pix c).g))) ++
  channelWords (matrix_transpose (fillSpec C (fun c => (pix c).r))) ++
  channelWords (matrix_transpose (fillSpec C (fun c => (pix c).b)))

/-- The words of LEDs `i, i+1, …, i+k-1` in output order. -/
def frameTail (C : Nat) (colors : Nat → Nat → RGB8) : Nat → Nat → List Nat
  | 0, _ => []
  | k + 1, i => ledWordsSpec C (fun c => colors c i) ++ frameTail C colors k (i + 1)

/-- The full output buffer contents for a frame. -/
def frameWords (N C : Nat) (colors : Nat → Nat → RGB8) : List Nat :=
  frameTail C colors N 0

/-- Modelled from the spec (§8): re-gather bit `c` of each of the 8 plane
bytes, taking planes 7 (list head, weight `2^7`) down to 0. -/
def gatherLane (bs : Bytes8) (c : Nat) : Nat :=
  ((bs.get 0 >>> c) &&& 1) * 2 ^ 7 + ((bs.get 1 >>> c) &&& 1) * 2 ^ 6 +
  ((bs.get 2 >>> c) &&& 1) * 2 ^ 5 + ((bs.get 3 >>> c) &&& 1) * 2 ^ 4 +
  ((bs.get 4 >>> c) &&& 1) * 2 ^ 3 + ((bs.get 5 >>> c) &&& 1) * 2 ^ 2 +
  ((bs.get 6 >>> c) &&& 1) * 2 ^ 1 + ((bs.get 7 >>> c) &&& 1) * 2 ^ 0

/-- Modelled from the spec (§3): `bit c of plane-p byte = bit p of lane c's
channel value (0 for c ≥ C)`. -/
def planeByteSpec (C : Nat) (lane : Nat → Nat) (p : Nat) : Nat :=
  (((if 0 < C then lane 0 else 0) >>> p) &&& 1) * 2 ^ 0 +
  (((if 1 < C then lane 1 else 0) >>> p) &&& 1) * 2 ^ 1 +
  (((if 2 < C then lane 2 else 0) >>> p) &&& 1) * 2 ^ 2 +
  (((if 3 < C then lane 3 else 0) >>> p) &&& 1) * 2 ^ 3 +
  (((if 4 < C then lane 4 else 0) >>> p) &&& 1) * 2 ^ 4 +
  (((if 5 < C then lane 5 else 0) >>> p) &&& 1) * 2 ^ 5 +
  (((if 6 < C then lane 6 else 0) >>> p) &&& 1) * 2 ^ 6 +
  (((if 7 < C then lane 7 else 0) >>> p) &&& 1) * 2 ^ 7

/-- The channel of a pixel in output order: `0 = G`, `1 = R`, `2 = B`. -/
def channelOf (j : Nat) (p : RGB8) : Nat :=
  match j with
  | 0 => p.g
  | 1 => p.r
  | _ => p.b

/-! ### Transmit-phase effects of `write` (lines 228–231) -/

/-- The two suspension points of `write` after the buffer is built. -/
inductive WriteEffect where
  | dmaPush (words : List Nat)
  | delayMicros (us : Nat)
deriving Repr, DecidableEq

/-- `write`'s effect trace: `dma_push(words).await` followed by
`Timer::after_micros(55).await`, then return. -/
def writeEffects (N C : Nat) (colors : Nat → Nat → RGB8) : Option (List WriteEffect) :=
  (PioWs2812SR_write N C colors).map fun s =>
    [WriteEffect.dmaPush s.buf, WriteEffect.delayMicros 55]

/-! ### Construction (`PioWs2812SR::new`, lines 115–161) -/

/-- `U24F8::from_num` on an integer: the raw fixed-point bits, 8 fractional. -/
def u24f8_fromNat (n : Nat) : Nat := n * 2 ^ 8

/-- Unsigned fixed-point division on raw bits: `(a << 8) / b`, flooring. -/
def u24f8_div (a b : Nat) : Nat := (a * 2 ^ 8) / b

/-- The clock-divider raw bits computed at construction (lines 140–143):
`U24F8::from_num(clk_sys_freq()/1000) / U24F8::from_num(800*52)`. -/
def clock_divider_bits (sysClkHz : Nat) : Nat :=
  u24f8_div (u24f8_fromNat (sysClkHz / 1000)) (u24f8_fromNat (800 * 52))

/-- The configuration `new` hands to the state machine. -/
structure DriverConfig where
  clockDividerBits : Nat
  fifoTxOnly : Bool
  autoFill : Bool
  threshold : Nat
  shiftLeft : Bool
  enabled : Bool
deriving Repr, DecidableEq

/-- `PioWs2812SR::new` (lines 115–161) for lane count `C` and system clock
`sysClkHz`.  The function has no failure path and performs no check of `C`;
a `none` result would model a construction-time rejection, and the body is
unconditionally `some`. -/
def PioWs2812SR_new (C : Nat) (sysClkHz : Nat) : Option DriverConfig :=
  some {
    clockDividerBits := clock_divider_bits sysClkHz
    fifoTxOnly := true
    autoFill := true
    threshold := 8
    shiftLeft := true
    enabled := true
  }

/-! ### The PIO microprogram (`PioWs2812SRProgram`, lines 44–71)

Side-set values apply to the two side-set pins `[clock, strobe]` declared in
`use_program` (line 138): bit 0 of the side value drives `clock`, bit 1
drives `strobe`.  `out` shifts the OSR left (`ShiftDirection::Left`,
line 151), so the data pin receives bit 31. -/

/-- One instruction of the `neopio` program, with its optional side-set. -/
inductive PioInstr where
  | setX (n : Nat) (side : Option Nat)
  | pull
  | setPins (v : Nat) (side : Option Nat)
  | outPins (side : Option Nat)
  | jmpXdec (target : Nat) (side : Option Nat)
deriving Repr, DecidableEq

/-- The `neopio` program as loaded (lines 46–65): addresses 0–9,
wrapping from address 9 back to 0. -/
def neopioProgram : List PioInstr :=
  [PioInstr.setX 7 (some 2),
   PioInstr.pull,
   PioInstr.setPins 1 (some 0),
   PioInstr.jmpXdec 2 (some 1),
   PioInstr.setX 7 (some 2),
   PioInstr.outPins (some 0),
   PioInstr.jmpXdec 5 (some 1),
   PioInstr.setX 7 (some 2),
   PioInstr.setPins 0 (some 0),
   PioInstr.jmpXdec 8 (some 1)]

/-- State-machine state: program counter, scratch `x`, output shift register,
TX queue, and the three output pins. -/
structure PioState where
  pc : Nat
  x : Nat
  osr : Nat
  fifo : List Nat
  data : Nat
  clock : Nat
  strobe : Nat
deriving Repr, DecidableEq

/-- Apply an optional 2-bit side-set value to the clock and strobe pins. -/
def applySide (s : PioState) : Option Nat → PioState
  | none => s
  | some v => { s with clock := v &&& 1, strobe := (v >>> 1) &&& 1 }

/-- `.wrap`: past the last instruction, execution continues at `.wrap_target`. -/
def wrapPc (pc : Nat) : Nat := if 10 ≤ pc then 0 else pc

/-- One clock cycle of the state machine.  `none` models the stall of a
blocking `pull` on an empty TX FIFO (the backpressure mechanism). -/
def pioStep (s : PioState) : Option PioState :=
  match neopioProgram.get? s.pc with
  | none => none
  | some instr =>
    match instr with
    | PioInstr.setX n side =>
      some (applySide { s with x := n, pc := wrapPc (s.pc + 1) } side)
    | PioInstr.pull =>
      match s.fifo with
      | [] => none
      | w :: rest =>
        some { s with osr := w, fifo := rest, pc := wrapPc (s.pc + 1) }
    | PioInstr.setPins v side =>
      some (applySide { s with data := v, pc := wrapPc (s.pc + 1) } side)
    | PioInstr.outPins side =>
      some (applySide { s with data := (s.osr >>> 31) &&& 1,
                               osr := (s.osr <<< 1) % 2 ^ 32,
                               pc := wrapPc (s.pc + 1) } side)
    | PioInstr.jmpXdec t side =>
      let s' := if s.x ≠ 0 then { s with pc := t } else { s with pc := wrapPc (s.pc + 1) }
      some (applySide { s' with x := if s.x = 0 then 4294967295 else s.x - 1 } side)

/-- Run `n` cycles, collecting the pin sample `(data, clock, strobe)` after
each cycle.  `none` if any cycle stalls. -/
def pioRun : Nat → PioState → Option (PioState × List (Nat × Nat × Nat))
  | 0, s => some (s, [])
  | n + 1, s =>
    match pioStep s with
    | none => none
    | some s' =>
      match pioRun n s' with
      | none => none
      | some (sf, tr) => some (sf, (s'.data, s'.clock, s'.strobe) :: tr)

/-- The concrete frame used by the spec's worked example and by the
counterexample to its byte values: `N = 1`, `C = 1`, lane 0 = `(R=1,G=2,B=4)`. -/
def cexColors : Nat → Nat → RGB8 := fun _ _ => ⟨1, 2, 4⟩

theorem matrix_transpose_pipeline (a : Bytes8) :
    matrix_transpose a =
      ⟨(mixT (dsStep 14 0x0000CCCC (dsStep 7 0x00AA00AA (pack4 a.e0 a.e1 a.e2 a.e3)))
             (dsStep 14 0x0000CCCC (dsStep 7 0x00AA00AA (pack4 a.e4 a.e5 a.e6 a.e7))) >>> 24) % 2 ^ 8,
       (mixT (dsStep 14 0x0000CCCC (dsStep 7 0x00AA00AA (pack4 a.e0 a.e1 a.e2 a.e3)))
             (dsStep 14 0x0000CCCC (dsStep 7 0x00AA00AA (pack4 a.e4 a.e5 a.e6 a.e7))) >>> 16) % 2 ^ 8,
       (mixT (dsStep 14 0x0000CCCC (dsStep 7 0x00AA00AA (pack4 a.e0 a.e1 a.e2 a.e3)))
             (dsStep 14 0x0000CCCC (dsStep 7 0x00AA00AA (pack4 a.e4 a.e5 a.e6 a.e7))) >>> 8) % 2 ^ 8,
       (mixT (dsStep 14 0x0000CCCC (dsStep 7 0x00AA00AA (pack4 a.e0 a.e1 a.e2 a.e3)))
             (dsStep 14 0x0000CCCC (dsStep 7 0x00AA00AA (pack4 a.e4 a.e5 a.e6 a.e7)))) % 2 ^ 8,
       (mixY (dsStep 14 0x0000CCCC (dsStep 7 0x00AA00AA (pack4 a.e0 a.e1 a.e2 a.e3)))
             (dsStep 14 0x0000CCCC (dsStep 7 0x00AA00AA (pack4 a.e4 a.e5 a.e6 a.e7))) >>> 24) % 2 ^ 8,
       (mixY (dsStep 14 0x0000CCCC (dsStep 7 0x00AA00AA (pack4 a.e0 a.e1 a.e2 a.e3)))
             (dsStep 14 0x0000CCCC (dsStep 7 0x00AA00AA (pack4 a.e4 a.e5 a.e6 a.e7))) >>> 16) % 2 ^ 8,
       (mixY (dsStep 14 0x0000CCCC (dsStep 7 0x00AA00AA (pack4 a.e0 a.e1 a.e2 a.e3)))
             (dsStep 14 0x0000CCCC (dsStep 7 0x00AA00AA (pack4 a.e4 a.e5 a.e6 a.e7))) >>> 8) % 2 ^ 8,
       (mixY (dsStep 14 0x0000CCCC (dsStep 7 0x00AA00AA (pack4 a.e0 a.e1 a.e2 a.e3)))
             (dsStep 14 0x0000CCCC (dsStep 7 0x00AA00AA (pack4 a.e4 a.e5 a.e6 a.e7)))) % 2 ^ 8⟩ :=
  rfl

/-! ### Pointwise bit semantics of the pipeline stages -/

/-- A delta swap moves the bit at `i + d` down to a mask position `i`. -/
theorem dsStep_bit_lo {v m d i : Nat} (hno : m &&& (m <<< d) = 0) (hi : i < 32)
    (hm : m.testBit i = true) : (dsStep d m v).testBit i = v.testBit (d + i) := by
  unfold dsStep
  simp only [Nat.testBit_xor, Nat.testBit_and, Nat.testBit_mod_two_pow,
    Nat.testBit_shiftLeft, Nat.testBit_shiftRight, hm, hi, decide_true_eq_true,
    Bool.and_true, Bool.true_and, decide_eq_true_eq]
  by_cases hdi : d ≤ i
  · have hmd : m.testBit (i - d) = false := by
      by_contra hcon
      rw [Bool.not_eq_false] at hcon
      have hz : (m &&& (m <<< d)).testBit i = false := by simp [hno]
      simp [Nat.testBit_and, Nat.testBit_shiftLeft, hm, hdi, hcon] at hz
    simp only [hmd, Bool.and_false, Bool.false_and, Bool.and_true, Bool.xor_false]
    cases hv : v.testBit i <;> cases hw : v.testBit (d + i) <;>
      simp [hdi, hv, hw]
  · simp only [ge_iff_le, hdi, decide_false_eq_false, Bool.false_and, Bool.and_false,
      Bool.xor_false]
    cases hv : v.testBit i <;> cases hw : v.testBit (d + i) <;> simp [hv, hw]

/-- A delta swap moves the bit at a mask position `i - d` up to `i`. -/
theorem dsStep_bit_hi {v m d i : Nat} (hno : m &&& (m <<< d) = 0) (hi : i < 32)
    (hdi : d ≤ i) (hm : m.testBit (i - d) = true) :
    (dsStep d m v).testBit i = v.testBit (i - d) := by
  have hmi : m.testBit i = false := by
    have hand := congrArg (fun z => z.testBit i) hno
    simp only [Nat.testBit_and, Nat.testBit_shiftLeft, Nat.zero_testBit] at hand
    by_contra hcon
    rw [Bool.not_eq_false] at hcon
    simp [hcon, hdi, hm] at hand
  unfold dsStep
  have hadd : d + (i - d) = i := by omega
  simp only [Nat.testBit_xor, Nat.testBit_and, Nat.testBit_mod_two_pow,
    Nat.testBit_shiftLeft, Nat.testBit_shiftRight, hm, hmi, hi, hadd,
    decide_true_eq_true, ge_iff_le, hdi, Bool.and_false, Bool.xor_false,
    Bool.true_and, Bool.and_true, decide_eq_true_eq]
  cases hv : v.testBit i <;> cases hw : v.testBit (i - d) <;> simp [hv, hw]

/-- A delta swap leaves bits outside the mask and its shifted copy unchanged. -/
theorem dsStep_bit_id {v m d i : Nat} (hi : i < 32)
    (hm1 : m.testBit i = false) (hm2 : (m <<< d).testBit i = false) :
    (dsStep d m v).testBit i = v.testBit i := by
  have hm2' : (decide (i ≥ d) && m.testBit (i - d)) = false := by
    simpa [Nat.testBit_shiftLeft] using hm2
  unfold dsStep
  simp only [Nat.testBit_xor, Nat.testBit_and, Nat.testBit_mod_two_pow,
    Nat.testBit_shiftLeft, Nat.testBit_shiftRight, hm1, hi, decide_true_eq_true,
    Bool.and_false, Bool.xor_false, Bool.true_and]
  by_cases hdi : d ≤ i
  · have hmd : m.testBit (i - d) = false := by
      have := hm2'
      simpa [hdi] using this
    simp [hmd]
  · simp [ge_iff_le, hdi]

/-- High bits of a byte are clear. -/
theorem byte_testBit_high {b j : Nat} (hb : b < 256) (hj : 8 ≤ j) : b.testBit j = false := by
  apply Nat.testBit_lt_two_pow
  calc b < 256 := hb
    _ = 2 ^ 8 := by norm_num
    _ ≤ 2 ^ j := Nat.pow_le_pow_right (by norm_num) hj

/-- `% 256` (the `as u8` cast) keeps the low 8 bits. -/
theorem testBit_mod256 (x : Nat) {i : Nat} (hi : i < 8) :
    (x % 256).testBit i = x.testBit i := by
  have e : (256 : Nat) = 2 ^ 8 := by norm_num
  rw [e, Nat.testBit_mod_two_pow]
  simp [hi]

/-- Bit behaviour of the first delta-swap (`d = 7`, mask `0x00AA00AA`). -/
theorem dsStep7_testBit (v i : Nat) (hi : i < 32) :
    (dsStep 7 0x00AA00AA v).testBit i =
      (if (0x00AA00AA : Nat).testBit i then v.testBit (7 + i)
       else if 7 ≤ i ∧ (0x00AA00AA : Nat).testBit (i - 7) then v.testBit (i - 7)
       else v.testBit i) := by
  by_cases hb1 : (0x00AA00AA : Nat).testBit i
  · rw [if_pos hb1, dsStep_bit_lo (by decide) hi hb1]
  · rw [if_neg hb1]
    by_cases hb2 : 7 ≤ i ∧ (0x00AA00AA : Nat).testBit (i - 7)
    · rw [if_pos hb2, dsStep_bit_hi (by decide) hi hb2.1 hb2.2]
    · rw [if_neg hb2, dsStep_bit_id hi (by simpa using hb1)]
      rw [Nat.testBit_shiftLeft]
      by_cases h7 : 7 ≤ i
      · have : ¬ (0x00AA00AA : Nat).testBit (i - 7) = true := fun hx => hb2 ⟨h7, hx⟩
        simp [this]
      · simp [ge_iff_le, h7]

/-- Bit behaviour of the second delta-swap (`d = 14`, mask `0x0000CCCC`). -/
theorem dsStep14_testBit (v i : Nat) (hi : i < 32) :
    (dsStep 14 0x0000CCCC v).testBit i =
      (if (0x0000CCCC : Nat).testBit i then v.testBit (14 + i)
       else if 14 ≤ i ∧ (0x0000CCCC : Nat).testBit (i - 14) then v.testBit (i - 14)
       else v.testBit i) := by
  by_cases hb1 : (0x0000CCCC : Nat).testBit i
  · rw [if_pos hb1, dsStep_bit_lo (by decide) hi hb1]
  · rw [if_neg hb1]
    by_cases hb2 : 14 ≤ i ∧ (0x0000CCCC : Nat).testBit (i - 14)
    · rw [if_pos hb2, dsStep_bit_hi (by decide) hi hb2.1 hb2.2]
    · rw [if_neg hb2, dsStep_bit_id hi (by simpa using hb1)]
      rw [Nat.testBit_shiftLeft]
      by_cases h14 : 14 ≤ i
      · have : ¬ (0x0000CCCC : Nat).testBit (i - 14) = true := fun hx => hb2 ⟨h14, hx⟩
        simp [this]
      · simp [ge_iff_le, h14]

/-- Bit behaviour of the nibble-mix producing `x` (line 95). -/
theorem mixT_testBit (x y i : Nat) (hi : i < 32) :
    (mixT x y).testBit i =
      (if (0xF0F0F0F0 : Nat).testBit i then x.testBit i else y.testBit (4 + i)) := by
  have hcompl : ∀ j, j < 32 →
      (0x0F0F0F0F : Nat).testBit j = !(0xF0F0F0F0 : Nat).testBit j := by decide
  unfold mixT
  simp only [Nat.testBit_or, Nat.testBit_and, Nat.testBit_shiftRight, hcompl i hi]
  by_cases hF : (0xF0F0F0F0 : Nat).testBit i <;> simp [hF]

/-- Bit behaviour of the nibble-mix producing `y` (line 96). -/
theorem mixY_testBit (x y i : Nat) (hi : i < 32) :
    (mixY x y).testBit i =
      (if (0xF0F0F0F0 : Nat).testBit i then x.testBit (i - 4) else y.testBit i) := by
  have hcompl : ∀ j, j < 32 →
      (0x0F0F0F0F : Nat).testBit j = !(0xF0F0F0F0 : Nat).testBit j := by decide
  have h4 : ∀ j, j < 32 → (0xF0F0F0F0 : Nat).testBit j = true → 4 ≤ j := by decide
  unfold mixY
  simp only [Nat.testBit_or, Nat.testBit_and, Nat.testBit_shiftLeft,
    Nat.testBit_mod_two_pow, hcompl i hi, hi, decide_true_eq_true, Bool.true_and]
  by_cases hF : (0xF0F0F0F0 : Nat).testBit i
  · simp [hF, ge_iff_le, h4 i hi hF]
  · simp [hF]

/-- Bit behaviour of the byte packing (lines 86–87). -/
theorem pack4_testBit {b0 b1 b2 b3 : Nat} (h1 : b1 < 256) (h2 : b2 < 256)
    (h3 : b3 < 256) (i : Nat) :
    (pack4 b0 b1 b2 b3).testBit i =
      (if 24 ≤ i then b0.testBit (i - 24) else if 16 ≤ i then b1.testBit (i - 16)
       else if 8 ≤ i then b2.testBit (i - 8) else b3.testBit i) := by
  unfold pack4
  simp only [Nat.testBit_or, Nat.testBit_shiftLeft, ge_iff_le]
  by_cases h24 : 24 ≤ i
  · rw [if_pos h24]
    have e1 : b1.testBit (i - 16) = false := byte_testBit_high h1 (by omega)
    have e2 : b2.testBit (i - 8) = false := byte_testBit_high h2 (by omega)
    have e3 : b3.testBit i = false := byte_testBit_high h3 (by omega)
    simp [h24, e1, e2, e3]
  · rw [if_neg h24]
    by_cases h16 : 16 ≤ i
    · rw [if_pos h16]
      have e2 : b2.testBit (i - 8) = false := byte_testBit_high h2 (by omega)
      have e3 : b3.testBit i = false := byte_testBit_high h3 (by omega)
      simp [h24, h16, e2, e3]
    · rw [if_neg h16]
      by_cases h8 : 8 ≤ i
      · rw [if_pos h8]
        have e3 : b3.testBit i = false := byte_testBit_high h3 (by omega)
        simp [h24, h16, h8, e3]
      · rw [if_neg h8]
        simp [h24, h16, h8]

/-- Master bit lemma for `matrix_transpose`: output byte `p`, bit `k`, equals
input byte `7 - k`, bit `7 - p`.  In particular the lane written at array
index `7 - c` ends up at bit position `c` (the LSB for lane 0). -/
theorem transpose_get_testBit (a : Bytes8) (h0 : a.e0 < 256) (h1 : a.e1 < 256)
    (h2 : a.e2 < 256) (h3 : a.e3 < 256) (h4 : a.e4 < 256) (h5 : a.e5 < 256)
    (h6 : a.e6 < 256) (h7 : a.e7 < 256) {p k : Nat} (hp : p < 8) (hk : k < 8) :
    ((matrix_transpose a).get p).testBit k = (a.get (7 - k)).testBit (7 - p) := by
  obtain ⟨a0, a1, a2, a3, a4, a5, a6, a7⟩ := a
  simp only at h0 h1 h2 h3 h4 h5 h6 h7
  rw [matrix_transpose_pipeline]
  interval_cases p <;> interval_cases k <;>
    simp +decide only [Bytes8.get, testBit_mod256, Nat.testBit_shiftRight,
      Nat.reduceAdd, Nat.reduceSub, Nat.reducePow, reduceIte,
      mixT_testBit, mixY_testBit, dsStep7_testBit, dsStep14_testBit,
      pack4_testBit h1 h2 h3, pack4_testBit h5 h6 h7]

/-! ### Byte-level consequences of the master bit lemma -/

/-- `(x >> c) & 1` is the `c`-th binary digit. -/
theorem shiftRight_and_one (x c : Nat) : (x >>> c) &&& 1 = x / 2 ^ c % 2 := by
  rw [Nat.and_one_is_mod, Nat.shiftRight_eq_div_pow]

/-- Equal bits give equal binary digits. -/
theorem extract_eq {x y m n : Nat} (h : x.testBit m = y.testBit n) :
    x / 2 ^ m % 2 = y / 2 ^ n % 2 := by
  rw [Nat.testBit_to_div_mod, Nat.testBit_to_div_mod] at h
  have hiff := decide_eq_decide.mp h
  have hx : x / 2 ^ m % 2 < 2 := Nat.mod_lt _ (by norm_num)
  have hy : y / 2 ^ n % 2 < 2 := Nat.mod_lt _ (by norm_num)
  omega

/-- Two bytes agreeing on bits 0–7 are equal. -/
theorem byte_eq_of_bits {x y : Nat} (hx : x < 256) (hy : y < 256)
    (h : ∀ i, i < 8 → x.testBit i = y.testBit i) : x = y := by
  apply Nat.eq_of_testBit_eq
  intro i
  by_cases hi : i < 8
  · exact h i hi
  · rw [byte_testBit_high hx (by omega), byte_testBit_high hy (by omega)]

/-- A byte is the weighted sum of its eight binary digits. -/
theorem byte_eq_sum8 {x : Nat} (hx : x < 256) {b0 b1 b2 b3 b4 b5 b6 b7 : Nat}
    (h0 : x / 2 ^ 0 % 2 = b0) (h1 : x / 2 ^ 1 % 2 = b1) (h2 : x / 2 ^ 2 % 2 = b2)
    (h3 : x / 2 ^ 3 % 2 = b3) (h4 : x / 2 ^ 4 % 2 = b4) (h5 : x / 2 ^ 5 % 2 = b5)
    (h6 : x / 2 ^ 6 % 2 = b6) (h7 : x / 2 ^ 7 % 2 = b7) :
    x = b0 * 2 ^ 0 + b1 * 2 ^ 1 + b2 * 2 ^ 2 + b3 * 2 ^ 3 + b4 * 2 ^ 4 +
        b5 * 2 ^ 5 + b6 * 2 ^ 6 + b7 * 2 ^ 7 := by
  omega

/-- Every output byte of the transpose is a byte (`as u8` casts). -/
theorem transpose_get_lt (a : Bytes8) (p : Nat) : (matrix_transpose a).get p < 256 := by
  rcases p with _ | _ | _ | _ | _ | _ | _ | _ | n <;>
    simp only [matrix_transpose_pipeline, Bytes8.get] <;> omega

/-- Structure extensionality for `Bytes8`. -/
theorem Bytes8.ext8 {a b : Bytes8} (h0 : a.e0 = b.e0) (h1 : a.e1 = b.e1)
    (h2 : a.e2 = b.e2) (h3 : a.e3 = b.e3) (h4 : a.e4 = b.e4) (h5 : a.e5 = b.e5)
    (h6 : a.e6 = b.e6) (h7 : a.e7 = b.e7) : a = b := by
  cases a; cases b; simp_all

/-! ### `fillLanes` characterisation -/

/-- For `C ≤ 8` the lane-fill loop succeeds and produces `fillSpec`. -/
theorem fillLanes_eq (f : Nat → Nat) {C : Nat} (hC : C ≤ 8) :
    fillLanes f C = some (fillSpec C f) := by
  interval_cases C <;>
    simp [fillLanes, fillSpec, Bytes8.set, Bytes8.zero]

/-- Entry `7 - c` of the filled array holds lane `c` when `c < C`, else 0. -/
theorem fillSpec_get_combined {C : Nat} (f : Nat → Nat) {c : Nat} (hc : c < 8) :
    (fillSpec C f).get (7 - c) = if c < C then f c else 0 := by
  interval_cases c <;> simp [fillSpec, Bytes8.get]

/-- All entries of the filled array are bytes when the lanes are. -/
theorem fillSpec_get_lt {C : Nat} {f : Nat → Nat} (hf : ∀ c, f c < 256) (j : Nat) :
    (fillSpec C f).get j < 256 := by
  rcases j with _ | _ | _ | _ | _ | _ | _ | _ | n <;>
    simp only [fillSpec, Bytes8.get] <;> first
    | (split <;> [exact hf _; norm_num])
    | norm_num

/-- The produced plane byte `k` (plane `7 - k`) of a filled-and-transposed
channel equals the spec's plane-byte definition. -/
theorem transpose_fillSpec_byte {C : Nat} {lane : Nat → Nat}
    (hlane : ∀ c, lane c < 256) {k : Nat} (hk : k < 8) :
    (matrix_transpose (fillSpec C lane)).get k = planeByteSpec C lane (7 - k) := by
  have hFb : ∀ j, (fillSpec C lane).get j < 256 := fillSpec_get_lt hlane
  have key : ∀ c, c < 8 →
      (matrix_transpose (fillSpec C lane)).get k / 2 ^ c % 2 =
        (if c < C then lane c else 0) / 2 ^ (7 - k) % 2 := by
    intro c hc
    apply extract_eq
    rw [transpose_get_testBit (fillSpec C lane) (hFb 0) (hFb 1) (hFb 2) (hFb 3)
        (hFb 4) (hFb 5) (hFb 6) (hFb 7) hk hc, fillSpec_get_combined lane hc]
  unfold planeByteSpec
  simp only [shiftRight_and_one]
  exact byte_eq_sum8 (transpose_get_lt _ k)
    (key 0 (by norm_num)) (key 1 (by norm_num)) (key 2 (by norm_num))
    (key 3 (by norm_num)) (key 4 (by norm_num)) (key 5 (by norm_num))
    (key 6 (by norm_num)) (key 7 (by norm_num))

/-- C5: The bit-plane transpose is an involution: for every 8-byte input
array `a`, `matrix_transpose (matrix_transpose a) = a`. -/
theorem matrix_transpose_involution (a : Bytes8) (h0 : a.e0 < 256) (h1 : a.e1 < 256)
    (h2 : a.e2 < 256) (h3 : a.e3 < 256) (h4 : a.e4 < 256) (h5 : a.e5 < 256)
    (h6 : a.e6 < 256) (h7 : a.e7 < 256) :
    matrix_transpose (matrix_transpose a) = a := by
  have hb : ∀ j, a.get j < 256 := by
    rcases a with ⟨a0, a1, a2, a3, a4, a5, a6, a7⟩
    intro j
    rcases j with _ | _ | _ | _ | _ | _ | _ | _ | n <;>
      simp only [Bytes8.get] <;> first | assumption | norm_num
  have hT : ∀ j, (matrix_transpose a).get j < 256 := transpose_get_lt a
  have hget : ∀ p, p < 8 →
      (matrix_transpose (matrix_transpose a)).get p = a.get p := by
    intro p hp
    apply byte_eq_of_bits (transpose_get_lt _ p) (hb p)
    intro k hk
    rw [transpose_get_testBit (matrix_transpose a) (hT 0) (hT 1) (hT 2) (hT 3)
        (hT 4) (hT 5) (hT 6) (hT 7) hp hk]
    rw [transpose_get_testBit a h0 h1 h2 h3 h4 h5 h6 h7
        (show 7 - k < 8 by omega) (show 7 - p < 8 by omega)]
    rw [show 7 - (7 - p) = p by omega, show 7 - (7 - k) = k by omega]
  exact Bytes8.ext8 (hget 0 (by norm_num)) (hget 1 (by norm_num)) (hget 2 (by norm_num))
    (hget 3 (by norm_num)) (hget 4 (by norm_num)) (hget 5 (by norm_num))
    (hget 6 (by norm_num)) (hget 7 (by norm_num))

/-- Witness for C5 at the concrete array `⟨1,2,3,4,5,6,7,8⟩`. -/
theorem matrix_transpose_involution_witness :
    matrix_transpose (matrix_transpose ⟨1, 2, 3, 4, 5, 6, 7, 8⟩) = ⟨1, 2, 3, 4, 5, 6, 7, 8⟩ :=
  matrix_transpose_involution ⟨1, 2, 3, 4, 5, 6, 7, 8⟩ (by norm_num) (by norm_num)
    (by norm_num) (by norm_num) (by norm_num) (by norm_num) (by norm_num) (by norm_num)

set_option maxHeartbeats 1000000 in
/-- C1: For every lane count `C ≤ 8` and lane bytes placed at index `7 - c`
by the fill loop, re-gathering bit `c` from the 8 plane bytes (planes 7 down
to 0) reconstructs lane `c`'s byte for every `c < C`, and every bit of every
plane byte at a position `≥ C` is zero. -/
theorem gather_reconstructs (C : Nat) (hC : C ≤ 8) (lane : Nat → Nat)
    (hlane : ∀ c, lane c < 256) (a : Bytes8) (ha : fillLanes lane C = some a) :
    (∀ c, c < C → gatherLane (matrix_transpose a) c = lane c) ∧
    (∀ k, k < 8 → ∀ pos, C ≤ pos →
      ((matrix_transpose a).get k).testBit pos = false) := by
  rw [fillLanes_eq lane hC] at ha
  obtain rfl : fillSpec C lane = a := Option.some.inj ha
  have hFb : ∀ j, (fillSpec C lane).get j < 256 := fillSpec_get_lt hlane
  constructor
  · intro c hc
    have hc8 : c < 8 := lt_of_lt_of_le hc hC
    have t : ∀ k, k < 8 →
        ((matrix_transpose (fillSpec C lane)).get k >>> c) &&& 1 =
          lane c / 2 ^ (7 - k) % 2 := by
      intro k hk
      rw [shiftRight_and_one]
      apply extract_eq
      rw [transpose_get_testBit (fillSpec C lane) (hFb 0) (hFb 1) (hFb 2) (hFb 3)
          (hFb 4) (hFb 5) (hFb 6) (hFb 7) hk hc8, fillSpec_get_combined lane hc8,
          if_pos hc]
    have hbyte := hlane c
    unfold gatherLane
    rw [t 0 (by norm_num), t 1 (by norm_num), t 2 (by norm_num), t 3 (by norm_num),
        t 4 (by norm_num), t 5 (by norm_num), t 6 (by norm_num), t 7 (by norm_num)]
    omega
  · intro k hk pos hpos
    by_cases h8 : pos < 8
    · rw [transpose_get_testBit (fillSpec C lane) (hFb 0) (hFb 1) (hFb 2) (hFb 3)
          (hFb 4) (hFb 5) (hFb 6) (hFb 7) hk h8, fillSpec_get_combined lane h8,
          if_neg (by omega)]
      simp
    · exact byte_testBit_high (transpose_get_lt _ k) (by omega)

/-- Witness for C1 at `C = 3`, lanes `c ↦ (17·c + 3) % 256` (bytes 3, 20, 37). -/
theorem gather_reconstructs_witness :
    (∀ c, c < 3 →
      gatherLane (matrix_transpose ⟨0, 0, 0, 0, 0, 37, 20, 3⟩) c = (17 * c + 3) % 256) ∧
    (∀ k, k < 8 → ∀ pos, 3 ≤ pos →
      ((matrix_transpose ⟨0, 0, 0, 0, 0, 37, 20, 3⟩).get k).testBit pos = false) :=
  gather_reconstructs 3 (by norm_num) (fun c => (17 * c + 3) % 256)
    (fun _ => Nat.mod_lt _ (by norm_num)) ⟨0, 0, 0, 0, 0, 37, 20, 3⟩ (by rfl)

/-- Counterexample to C3: for `N = 1`, `C = 1`, lane 0 = `(R=1,G=2,B=4)`, the
buffer produced by `write` holds the word `0x01000000` at flat indices 6, 15
and 21 (the single lane's bit sits at bit position 0 of the plane byte, so
bytes are `0x01`), not the `0x80 << 24 = 0x80000000` the claim's plane bytes
`[…, 0x80, …]` would give. -/
theorem single_lane_msb_counterexample :
    PioWs2812SR_write 1 1 cexColors =
      some ⟨[0, 0, 0, 0, 0, 0, 16777216, 0,
             0, 0, 0, 0, 0, 0, 0, 16777216,
             0, 0, 0, 0, 0, 16777216, 0, 0], 24⟩ ∧
    (16777216 : Nat) ≠ 0x80 <<< 24 := by
  exact ⟨by rfl, by decide⟩

/-- C3 as amended: `FrameBuilder` places lane `c`'s byte at array index
`7 - c`, which puts lane 0 at the LEAST significant bit (bit 0) of every
plane byte; for `N = 1`, `C = 1` with lane 0 pixel `(R=1,G=2,B=4)` the top
bytes in order (plane 7→0) per channel G,R,B are `[0,0,0,0,0,0,0x01,0]`,
`[0,0,0,0,0,0,0,0x01]` and `[0,0,0,0,0,0x01,0,0]`; in the single-lane case
`plane-byte[p] = (value >> p) & 1`. -/
theorem single_lane_lsb :
    (PioWs2812SR_write 1 1 cexColors =
      some ⟨[0, 0, 0, 0, 0, 0, 0x01 <<< 24, 0,
             0, 0, 0, 0, 0, 0, 0, 0x01 <<< 24,
             0, 0, 0, 0, 0, 0x01 <<< 24, 0, 0], 24⟩) ∧
    (∀ v, v < 256 → ∀ p, p < 8 →
      (matrix_transpose (fillSpec 1 (fun _ => v))).get (7 - p) = (v >>> p) &&& 1) := by
  constructor
  · rfl
  · intro v hv p hp
    have hlane : ∀ c, (fun _ : Nat => v) c < 256 := fun _ => hv
    rw [transpose_fillSpec_byte hlane (show 7 - p < 8 by omega),
        show 7 - (7 - p) = p by omega]
    unfold planeByteSpec
    norm_num

/-- Witness for the amended C3 at `v = 2`, `p = 1` (the G channel example). -/
theorem single_lane_lsb_witness :
    (matrix_transpose (fillSpec 1 (fun _ => 2))).get 6 = (2 >>> 1) &&& 1 := by
  have h := single_lane_lsb.2 2 (by norm_num) 1 (by norm_num)
  simpa using h

/-! ### Characterisation of the buffer-building loop -/

theorem channelWords_length (bs : Bytes8) : (channelWords bs).length = 8 := by
  simp [channelWords, Bytes8.toList]

theorem ledWordsSpec_length (C : Nat) (pix : Nat → RGB8) :
    (ledWordsSpec C pix).length = 24 := by
  simp [ledWordsSpec, channelWords_length]

theorem frameTail_length (C : Nat) (colors : Nat → Nat → RGB8) :
    ∀ k i, (frameTail C colors k i).length = 24 * k := by
  intro k
  induction k with
  | zero => intro i; simp [frameTail]
  | succ k ih =>
    intro i
    simp only [frameTail, List.length_append, ledWordsSpec_length, ih]
    omega

theorem frameWords_length (N C : Nat) (colors : Nat → Nat → RGB8) :
    (frameWords N C colors).length = 24 * N :=
  frameTail_length C colors N 0

/-- One store through `words[word_index]` onto the first still-zero slot. -/
theorem pushByte_snoc (done : List Nat) (m b : Nat) :
    pushByte ⟨done ++ List.replicate (m + 1) 0, done.length⟩ b =
      some ⟨(done ++ [(b <<< 24) % 2 ^ 32]) ++ List.replicate m 0, done.length + 1⟩ := by
  unfold pushByte
  rw [if_pos (by simp)]
  simp only [Option.some.injEq, BufState.mk.injEq, and_true]
  rw [List.set_append_right _ _ (Nat.le_refl _)]
  simp [List.replicate_succ, List.append_assoc]

/-- Folding `pushByte` over a byte list appends the shifted words in order. -/
theorem pushList_spec (bl : List Nat) : ∀ (done : List Nat) (m : Nat),
    List.foldlM pushByte (⟨done ++ List.replicate (bl.length + m) 0, done.length⟩ : BufState) bl =
      some ⟨(done ++ bl.map (fun b => (b <<< 24) % 2 ^ 32)) ++ List.replicate m 0,
            done.length + bl.length⟩ := by
  induction bl with
  | nil => intro done m; simp
  | cons b tl ih =>
    intro done m
    rw [List.foldlM_cons]
    rw [show (b :: tl).length + m = (tl.length + m) + 1 by simp; omega]
    rw [pushByte_snoc done (tl.length + m) b]
    simp only [Option.bind_eq_bind, Option.some_bind]
    have h := ih (done ++ [(b <<< 24) % 2 ^ 32]) m
    simp only [List.length_append, List.length_cons, List.length_nil, Nat.zero_add] at h
    rw [h]
    simp only [Option.some.injEq, BufState.mk.injEq]
    constructor
    · simp [List.append_assoc]
    · simp
      omega

/-- `pushBytes` appends the 8 words of one channel. -/
theorem pushBytes_spec (bs : Bytes8) (done : List Nat) (m n : Nat) (hn : n = done.length) :
    pushBytes ⟨done ++ List.replicate (8 + m) 0, n⟩ bs =
      some ⟨(done ++ channelWords bs) ++ List.replicate m 0, n + 8⟩ := by
  subst hn
  have h := pushList_spec bs.toList done m
  rw [show bs.toList.length = 8 from by simp [Bytes8.toList]] at h
  simpa [pushBytes, channelWords] using h

/-- `pushLed` appends the 24 words of one LED in channel order g, r, b. -/
theorem pushLed_spec {C : Nat} (hC : C ≤ 8) (pix : Nat → RGB8) (done : List Nat)
    (m n : Nat) (hn : n = done.length) :
    pushLed C pix ⟨done ++ List.replicate (24 + m) 0, n⟩ =
      some ⟨(done ++ ledWordsSpec C pix) ++ List.replicate m 0, n + 24⟩ := by
  subst hn
  unfold pushLed
  rw [fillLanes_eq _ hC, fillLanes_eq _ hC, fillLanes_eq _ hC]
  simp only [Option.some_bind]
  rw [show 24 + m = 8 + (8 + (8 + m)) by omega]
  rw [pushBytes_spec _ done _ _ rfl]
  simp only [Option.some_bind]
  rw [pushBytes_spec _ (done ++ channelWords (matrix_transpose (fillSpec C fun c => (pix c).g)))
      _ _ (by simp [channelWords_length])]
  simp only [Option.some_bind]
  rw [pushBytes_spec _ ((done ++ channelWords (matrix_transpose (fillSpec C fun c => (pix c).g)))
        ++ channelWords (matrix_transpose (fillSpec C fun c => (pix c).r)))
      _ _ (by simp [channelWords_length])]
  simp only [Option.some.injEq, BufState.mk.injEq]
  constructor
  · simp [ledWordsSpec, List.append_assoc]
  · simp only [List.length_append, channelWords_length]
    try omega

/-- The LED loop fills the remaining `24·k` zero slots with the words of
LEDs `i, …, i+k-1`. -/
theorem writeLeds_spec {C : Nat} (hC : C ≤ 8) (colors : Nat → Nat → RGB8) :
    ∀ (k i : Nat) (done : List Nat) (n : Nat), n = done.length →
    writeLeds C colors k i ⟨done ++ List.replicate (24 * k) 0, n⟩ =
      some ⟨done ++ frameTail C colors k i, n + 24 * k⟩ := by
  intro k
  induction k with
  | zero => intro i done n hn; simp [writeLeds, frameTail]
  | succ k ih =>
    intro i done n hn
    subst hn
    simp only [writeLeds]
    rw [show 24 * (k + 1) = 24 + 24 * k by ring]
    rw [pushLed_spec hC _ done _ _ rfl]
    simp only [Option.some_bind]
    rw [ih (i + 1) (done ++ ledWordsSpec C fun c => colors c i) _ (by simp [ledWordsSpec_length])]
    simp only [Option.some.injEq, BufState.mk.injEq, frameTail]
    constructor
    · simp [List.append_assoc]
    · omega

/-- For `C ≤ 8`, `write` builds exactly the `frameWords` buffer and ends with
`word_index = 24·N`. -/
theorem write_characterization (N C : Nat) (hC : C ≤ 8) (colors : Nat → Nat → RGB8) :
    PioWs2812SR_write N C colors = some ⟨frameWords N C colors, 24 * N⟩ := by
  unfold PioWs2812SR_write frameWords
  have h := writeLeds_spec hC colors N 0 [] 0 rfl
  rw [show 8 * N * 3 = 24 * N by ring]
  simpa using h

/-- C10: Under `C ≤ 8` the buffer-building loop performs no out-of-bounds
store and no `7 - c` underflow (the run produces `some`), and on completion
`word_index` equals the buffer length `24·N`, every slot having been written. -/
theorem write_loop_safe (N C : Nat) (hC : C ≤ 8) (colors : Nat → Nat → RGB8) :
    ∃ s, PioWs2812SR_write N C colors = some s ∧
      s.word_index = 24 * N ∧ s.buf.length = 24 * N ∧ s.buf = frameWords N C colors :=
  ⟨⟨frameWords N C colors, 24 * N⟩, write_characterization N C hC colors, rfl,
    frameWords_length N C colors, rfl⟩

/-- Witness for C10 at `N = 2`, `C = 8` and a concrete frame. -/
theorem write_loop_safe_witness :
    ∃ s, PioWs2812SR_write 2 8 (fun c i => ⟨c, i, c + i⟩) = some s ∧
      s.word_index = 24 * 2 ∧ s.buf.length = 24 * 2 ∧
      s.buf = frameWords 2 8 (fun c i => ⟨c, i, c + i⟩) :=
  write_loop_safe 2 8 (by norm_num) (fun c i => ⟨c, i, c + i⟩)

/-- Every word of the frame has the form `(b << 24) % 2^32`. -/
theorem frameTail_mem {C : Nat} {colors : Nat → Nat → RGB8} :
    ∀ k i w, w ∈ frameTail C colors k i → ∃ b, w = (b <<< 24) % 2 ^ 32 := by
  intro k
  induction k with
  | zero => intro i w hw; simp [frameTail] at hw
  | succ k ih =>
    intro i w hw
    simp only [frameTail, List.mem_append] at hw
    rcases hw with hw | hw
    · simp only [ledWordsSpec, List.mem_append, channelWords, List.mem_map] at hw
      rcases hw with (⟨b, _, rfl⟩ | ⟨b, _, rfl⟩) | ⟨b, _, rfl⟩ <;> exact ⟨b, rfl⟩
    · exact ih (i + 1) w hw

/-- The low 24 bits of a transmission word are zero. -/
theorem word_low24 (b : Nat) : ((b <<< 24) % 2 ^ 32) % 2 ^ 24 = 0 := by
  rw [Nat.mod_mod_of_dvd _ (by norm_num : (2 : Nat) ^ 24 ∣ 2 ^ 32), Nat.shiftLeft_eq,
    Nat.mul_mod_left]

/-- C4: For every valid `(N, C)` the output buffer holds exactly `24·N`
32-bit transmission words, and every word has its low 24 bits zero. -/
theorem write_buffer_shape (N C : Nat) (hC : C ≤ 8) (colors : Nat → Nat → RGB8)
    (s : BufState) (hw : PioWs2812SR_write N C colors = some s) :
    s.buf.length = 24 * N ∧ ∀ w ∈ s.buf, w % 2 ^ 24 = 0 := by
  rw [write_characterization N C hC colors] at hw
  obtain rfl := Option.some.inj hw
  refine ⟨frameWords_length N C colors, ?_⟩
  intro w hw'
  have hmem : w ∈ frameTail C colors N 0 := hw'
  obtain ⟨b, hb⟩ := frameTail_mem N 0 w hmem
  rw [hb]
  exact word_low24 b

/-- Witness for C4 at `N = 1`, `C = 1` and the example frame. -/
theorem write_buffer_shape_witness :
    (BufState.buf ⟨[0, 0, 0, 0, 0, 0, 16777216, 0,
                    0, 0, 0, 0, 0, 0, 0, 16777216,
                    0, 0, 0, 0, 0, 16777216, 0, 0], 24⟩).length = 24 * 1 ∧
    ∀ w ∈ (BufState.buf ⟨[0, 0, 0, 0, 0, 0, 16777216, 0,
                          0, 0, 0, 0, 0, 0, 0, 16777216,
                          0, 0, 0, 0, 0, 16777216, 0, 0], 24⟩), w % 2 ^ 24 = 0 :=
  write_buffer_shape 1 1 (by norm_num) cexColors _ (by rfl)

/-- A transmission word built from a byte does not wrap. -/
theorem word_mod_eq {b : Nat} (hb : b < 256) : (b <<< 24) % 2 ^ 32 = b <<< 24 := by
  apply Nat.mod_eq_of_lt
  rw [Nat.shiftLeft_eq]
  omega

/-- The spec plane byte is a byte. -/
theorem planeByteSpec_lt (C : Nat) (lane : Nat → Nat) (p : Nat) :
    planeByteSpec C lane p < 256 := by
  unfold planeByteSpec
  have h0 : (((if 0 < C then lane 0 else 0) >>> p) &&& 1) ≤ 1 := Nat.and_le_right
  have h1 : (((if 1 < C then lane 1 else 0) >>> p) &&& 1) ≤ 1 := Nat.and_le_right
  have h2 : (((if 2 < C then lane 2 else 0) >>> p) &&& 1) ≤ 1 := Nat.and_le_right
  have h3 : (((if 3 < C then lane 3 else 0) >>> p) &&& 1) ≤ 1 := Nat.and_le_right
  have h4 : (((if 4 < C then lane 4 else 0) >>> p) &&& 1) ≤ 1 := Nat.and_le_right
  have h5 : (((if 5 < C then lane 5 else 0) >>> p) &&& 1) ≤ 1 := Nat.and_le_right
  have h6 : (((if 6 < C then lane 6 else 0) >>> p) &&& 1) ≤ 1 := Nat.and_le_right
  have h7 : (((if 7 < C then lane 7 else 0) >>> p) &&& 1) ≤ 1 := Nat.and_le_right
  omega

theorem channelWords_get? (bs : Bytes8) {k : Nat} (hk : k < 8) :
    (channelWords bs).get? k = some ((bs.get k <<< 24) % 2 ^ 32) := by
  interval_cases k <;> simp [channelWords, Bytes8.toList, Bytes8.get]

theorem ledWordsSpec_get? {C : Nat} (pix : Nat → RGB8)
    (hr : ∀ c, (pix c).r < 256) (hg : ∀ c, (pix c).g < 256) (hb : ∀ c, (pix c).b < 256)
    {j k : Nat} (hj : j < 3) (hk : k < 8) :
    (ledWordsSpec C pix).get? (8 * j + k) =
      some ((planeByteSpec C (fun c => channelOf j (pix c)) (7 - k)) <<< 24) := by
  have hw : ∀ lane : Nat → Nat, (∀ c, lane c < 256) →
      (channelWords (matrix_transpose (fillSpec C lane))).get? k =
        some ((planeByteSpec C lane (7 - k)) <<< 24) := by
    intro lane hlane
    rw [channelWords_get? _ hk, transpose_fillSpec_byte hlane hk,
        word_mod_eq (planeByteSpec_lt _ _ _)]
  unfold ledWordsSpec
  interval_cases j
  · rw [show 8 * 0 + k = k by omega]
    rw [List.get?_append (by simp [channelWords_length] <;> omega)]
    rw [List.get?_append (by simp [channelWords_length] <;> omega)]
    exact hw (fun c => channelOf 0 (pix c)) hg
  · rw [List.get?_append (by simp [channelWords_length] <;> omega)]
    rw [List.get?_append_right (by simp [channelWords_length] <;> omega)]
    rw [channelWords_length, show 8 * 1 + k - 8 = k by omega]
    exact hw (fun c => channelOf 1 (pix c)) hr
  · rw [List.get?_append_right (by simp [channelWords_length] <;> omega)]
    rw [show (channelWords (matrix_transpose (fillSpec C fun c => (pix c).g)) ++
          channelWords (matrix_transpose (fillSpec C fun c => (pix c).r))).length = 16
        from by simp [channelWords_length]]
    rw [show 8 * 2 + k - 16 = k by omega]
    exact hw (fun c => channelOf 2 (pix c)) hb

theorem frameTail_get? (C : Nat) (colors : Nat → Nat → RGB8) :
    ∀ (cnt t i0 : Nat), t < cnt → ∀ r, r < 24 →
      (frameTail C colors cnt i0).get? (24 * t + r) =
        (ledWordsSpec C (fun c => colors c (i0 + t))).get? r := by
  intro cnt
  induction cnt with
  | zero => intro t i0 ht; exact absurd ht (Nat.not_lt_zero t)
  | succ cnt ih =>
    intro t i0 ht r hr
    rcases t with _ | t
    · simp only [frameTail]
      rw [show 24 * 0 + r = r by omega]
      rw [List.get?_append (by rw [ledWordsSpec_length]; omega)]
      rw [Nat.add_zero]
    · simp only [frameTail]
      rw [List.get?_append_right (by rw [ledWordsSpec_length]; omega)]
      rw [ledWordsSpec_length, show 24 * (t + 1) + r - 24 = 24 * t + r by ring_nf; omega]
      rw [ih t (i0 + 1) (by omega) r hr]
      rw [show i0 + 1 + t = i0 + (t + 1) by omega]

/-- C2: For every `N`, `C ≤ 8` and frame, the word at flat index
`24·i + 8·j + k` (`j ∈ {0=G,1=R,2=B}`, `k < 8`) is the plane-`(7-k)` byte of
channel `j` of LED `i`, shifted left by 24 bits. -/
theorem write_word_order (N C : Nat) (hC : C ≤ 8) (colors : Nat → Nat → RGB8)
    (hr : ∀ c i, (colors c i).r < 256) (hg : ∀ c i, (colors c i).g < 256)
    (hb : ∀ c i, (colors c i).b < 256)
    {i j k : Nat} (hi : i < N) (hj : j < 3) (hk : k < 8)
    (s : BufState) (hw : PioWs2812SR_write N C colors = some s) :
    s.buf.get? (24 * i + 8 * j + k) =
      some ((planeByteSpec C (fun c => channelOf j (colors c i)) (7 - k)) <<< 24) := by
  rw [write_characterization N C hC colors] at hw
  obtain rfl := Option.some.inj hw
  show (frameWords N C colors).get? _ = _
  unfold frameWords
  rw [show 24 * i + 8 * j + k = 24 * i + (8 * j + k) by omega]
  rw [frameTail_get? C colors N i 0 hi (8 * j + k) (by omega)]
  simp only [Nat.zero_add]
  exact ledWordsSpec_get? _ (fun c => hr c i) (fun c => hg c i) (fun c => hb c i) hj hk

/-- Witness for C2 at `N = 1`, `C = 1`, the example frame, `i = 0`, `j = 0`
(green), `k = 6`. -/
theorem write_word_order_witness :
    (BufState.buf ⟨[0, 0, 0, 0, 0, 0, 16777216, 0,
                    0, 0, 0, 0, 0, 0, 0, 16777216,
                    0, 0, 0, 0, 0, 16777216, 0, 0], 24⟩).get? (24 * 0 + 8 * 0 + 6) =
      some ((planeByteSpec 1 (fun c => channelOf 0 (cexColors c 0)) (7 - 6)) <<< 24) :=
  write_word_order 1 1 (by norm_num) cexColors
    (fun _ _ => by norm_num [cexColors]) (fun _ _ => by norm_num [cexColors])
    (fun _ _ => by norm_num [cexColors]) (by norm_num) (by norm_num) (by norm_num)
    _ (by rfl)

/-! ### Construction (C6, C8) and transmit effects (C7) -/

/-- The lane-fill loop for `C = 9` hits the `7 - c` underflow at `c = 8`. -/
theorem fillLanes_nine (f : Nat → Nat) : fillLanes f 9 = none := rfl

/-- Counterexample to C6: construction with `C = 9` is not rejected — `new`
returns a fully formed configuration, identical in shape to any valid `C`. -/
theorem new_accepts_nine_counterexample :
    PioWs2812SR_new 9 125000000 =
      some { clockDividerBits := 769, fifoTxOnly := true, autoFill := true,
             threshold := 8, shiftLeft := true, enabled := true } := by
  rfl

/-- C6 as amended: `new` performs no lane-count check — construction succeeds
for every `C`, including `C = 9`; the violation surfaces only at the first
`write` with a nonempty strip, which panics on the `7 - c` underflow at
`c = 8` (modelled as `none`), so lanes are still never silently truncated. -/
theorem construction_unchecked :
    (∀ C sysClkHz, PioWs2812SR_new C sysClkHz =
        some { clockDividerBits := clock_divider_bits sysClkHz, fifoTxOnly := true,
               autoFill := true, threshold := 8, shiftLeft := true, enabled := true }) ∧
    (∀ N, 0 < N → ∀ colors, PioWs2812SR_write N 9 colors = none) := by
  constructor
  · intro C sysClkHz; rfl
  · intro N hN colors
    obtain ⟨k, rfl⟩ : ∃ k, N = k + 1 := ⟨N - 1, by omega⟩
    unfold PioWs2812SR_write
    simp only [writeLeds]
    unfold pushLed
    rw [fillLanes_nine]
    simp

/-- Witness for the amended C6 at `C = 9`, a 125 MHz clock, `N = 1`. -/
theorem construction_unchecked_witness :
    (PioWs2812SR_new 9 125000000 =
      some { clockDividerBits := clock_divider_bits 125000000, fifoTxOnly := true,
             autoFill := true, threshold := 8, shiftLeft := true, enabled := true }) ∧
    PioWs2812SR_write 1 9 (fun _ _ => ⟨0, 0, 0⟩) = none :=
  ⟨construction_unchecked.1 9 125000000,
   construction_unchecked.2 1 (by norm_num) (fun _ _ => ⟨0, 0, 0⟩)⟩

/-- C7: For every frame size, after building the buffer `write` first awaits
the DMA push of the whole buffer and then suspends for the fixed
55-microsecond settle delay; these are the only effects before returning. -/
theorem transmit_effects (N C : Nat) (hC : C ≤ 8) (colors : Nat → Nat → RGB8) :
    writeEffects N C colors =
      some [WriteEffect.dmaPush (frameWords N C colors), WriteEffect.delayMicros 55] := by
  unfold writeEffects
  rw [write_characterization N C hC colors]
  rfl

/-- Witness for C7 at `N = 1`, `C = 1`, the example frame. -/
theorem transmit_effects_witness :
    writeEffects 1 1 cexColors =
      some [WriteEffect.dmaPush (frameWords 1 1 cexColors), WriteEffect.delayMicros 55] :=
  transmit_effects 1 1 (by norm_num) cexColors

/-- Counterexample to C8: at a 125 MHz system clock the computed divider
(raw fixed-point bits) is `769`, i.e. `769/256 ≈ 3.0039`, while the claimed
integer `floor(125000 kHz / 41600) = 3` has raw bits `768`. -/
theorem clock_divider_counterexample :
    clock_divider_bits 125000000 = 769 ∧
    (125000000 / 1000 / (800 * 52)) * 2 ^ 8 = 768 ∧ (769 : Nat) ≠ 768 := by
  refine ⟨by rfl, by norm_num, by norm_num⟩

/-- C8 as amended: the divider is a `U24F8` fixed-point value with 8
fractional bits, raw bits `floor(sysKHz · 2^8 · 2^8 / (800·52 · 2^8))`; only
its integer part equals `floor(system_clock_kHz / (800·52))` — the divider
itself equals that integer floor only when the division is exact. -/
theorem clock_divider_bits_spec (sysClkHz : Nat) :
    clock_divider_bits sysClkHz = (sysClkHz / 1000 * 2 ^ 8 * 2 ^ 8) / (800 * 52 * 2 ^ 8) ∧
    clock_divider_bits sysClkHz / 2 ^ 8 = sysClkHz / 1000 / (800 * 52) := by
  unfold clock_divider_bits u24f8_div u24f8_fromNat
  exact ⟨rfl, by omega⟩

set_option maxHeartbeats 4000000 in
/-- C9: For every byte the microprogram pulls (strobe is asserted in the
header state, where data is also forced high for the pull cycle), it emits
exactly the 8+8+8 framing cycle: 8 clock pulses with data forced to 1, 8
clock pulses shifting the byte's bits onto data most-significant bit first,
8 clock pulses with data forced to 0, and then wraps back to the header
state (`pc = 0`) with the word consumed — there is no terminal state. -/
theorem pio_frame_cycle (b : Nat) (hb : b < 256) (rest : List Nat)
    (x0 o0 d0 c0 s0 : Nat) :
    ∃ oe, pioRun 52 ⟨0, x0, o0, (b <<< 24) :: rest, d0, c0, s0⟩ =
      some (⟨0, 4294967295, oe, rest, 0, 1, 0⟩,
        [(d0, 0, 1),
         (d0, 0, 1),
         (1, 0, 0),
         (1, 1, 0),
         (1, 0, 0),
         (1, 1, 0),
         (1, 0, 0),
         (1, 1, 0),
         (1, 0, 0),
         (1, 1, 0),
         (1, 0, 0),
         (1, 1, 0),
         (1, 0, 0),
         (1, 1, 0),
         (1, 0, 0),
         (1, 1, 0),
         (1, 0, 0),
         (1, 1, 0),
         (1, 0, 1),
         ((b >>> 7) &&& 1, 0, 0),
         ((b >>> 7) &&& 1, 1, 0),
         ((b >>> 6) &&& 1, 0, 0),
         ((b >>> 6) &&& 1, 1, 0),
         ((b >>> 5) &&& 1, 0, 0),
         ((b >>> 5) &&& 1, 1, 0),
         ((b >>> 4) &&& 1, 0, 0),
         ((b >>> 4) &&& 1, 1, 0),
         ((b >>> 3) &&& 1, 0, 0),
         ((b >>> 3) &&& 1, 1, 0),
         ((b >>> 2) &&& 1, 0, 0),
         ((b >>> 2) &&& 1, 1, 0),
         ((b >>> 1) &&& 1, 0, 0),
         ((b >>> 1) &&& 1, 1, 0),
         (b &&& 1, 0, 0),
         (b &&& 1, 1, 0),
         (b &&& 1, 0, 1),
         (0, 0, 0),
         (0, 1, 0),
         (0, 0, 0),
         (0, 1, 0),
         (0, 0, 0),
         (0, 1, 0),
         (0, 0, 0),
         (0, 1, 0),
         (0, 0, 0),
         (0, 1, 0),
         (0, 0, 0),
         (0, 1, 0),
         (0, 0, 0),
         (0, 1, 0),
         (0, 0, 0),
         (0, 1, 0)]) := by
  have h0 : ((b <<< 24) >>> 31) &&& 1 = (b >>> 7) &&& 1 := by
    simp only [Nat.shiftLeft_eq, Nat.shiftRight_eq_div_pow, Nat.and_one_is_mod]
    omega
  have h1 : ((((b <<< 24) <<< 1) % 2 ^ 32) >>> 31) &&& 1 = (b >>> 6) &&& 1 := by
    simp only [Nat.shiftLeft_eq, Nat.shiftRight_eq_div_pow, Nat.and_one_is_mod]
    omega
  have h2 : ((((((b <<< 24) <<< 1) % 2 ^ 32) <<< 1) % 2 ^ 32) >>> 31) &&& 1 = (b >>> 5) &&& 1 := by
    simp only [Nat.shiftLeft_eq, Nat.shiftRight_eq_div_pow, Nat.and_one_is_mod]
    omega
  have h3 : ((((((((b <<< 24) <<< 1) % 2 ^ 32) <<< 1) % 2 ^ 32) <<< 1) % 2 ^ 32) >>> 31) &&& 1 = (b >>> 4) &&& 1 := by
    simp only [Nat.shiftLeft_eq, Nat.shiftRight_eq_div_pow, Nat.and_one_is_mod]
    omega
  have h4 : ((((((((((b <<< 24) <<< 1) % 2 ^ 32) <<< 1) % 2 ^ 32) <<< 1) % 2 ^ 32) <<< 1) % 2 ^ 32) >>> 31) &&& 1 = (b >>> 3) &&& 1 := by
    simp only [Nat.shiftLeft_eq, Nat.shiftRight_eq_div_pow, Nat.and_one_is_mod]
    omega
  have h5 : ((((((((((((b <<< 24) <<< 1) % 2 ^ 32) <<< 1) % 2 ^ 32) <<< 1) % 2 ^ 32) <<< 1) % 2 ^ 32) <<< 1) % 2 ^ 32) >>> 31) &&& 1 = (b >>> 2) &&& 1 := by
    simp only [Nat.shiftLeft_eq, Nat.shiftRight_eq_div_pow, Nat.and_one_is_mod]
    omega
  have h6 : ((((((((((((((b <<< 24) <<< 1) % 2 ^ 32) <<< 1) % 2 ^ 32) <<< 1) % 2 ^ 32) <<< 1) % 2 ^ 32) <<< 1) % 2 ^ 32) <<< 1) % 2 ^ 32) >>> 31) &&& 1 = (b >>> 1) &&& 1 := by
    simp only [Nat.shiftLeft_eq, Nat.shiftRight_eq_div_pow, Nat.and_one_is_mod]
    omega
  have h7 : ((((((((((((((((b <<< 24) <<< 1) % 2 ^ 32) <<< 1) % 2 ^ 32) <<< 1) % 2 ^ 32) <<< 1) % 2 ^ 32) <<< 1) % 2 ^ 32) <<< 1) % 2 ^ 32) <<< 1) % 2 ^ 32) >>> 31) &&& 1 = b &&& 1 := by
    simp only [Nat.shiftLeft_eq, Nat.shiftRight_eq_div_pow, Nat.and_one_is_mod]
    omega
  refine ⟨(((((((((((((((b <<< 24) <<< 1) % 2 ^ 32) <<< 1) % 2 ^ 32) <<< 1) % 2 ^ 32) <<< 1) % 2 ^ 32) <<< 1) % 2 ^ 32) <<< 1) % 2 ^ 32) <<< 1) % 2 ^ 32) <<< 1 % 2 ^ 32, ?_⟩
  rw [← h0, ← h1, ← h2, ← h3, ← h4, ← h5, ← h6, ← h7]
  rfl

/-- Witness for C9 at the concrete byte `0xB2 = 178`. -/
theorem pio_frame_cycle_witness :
    ∃ oe, pioRun 52 ⟨0, 0, 0, [178 <<< 24], 0, 0, 0⟩ =
      some (⟨0, 4294967295, oe, [], 0, 1, 0⟩,
        [(0, 0, 1),
         (0, 0, 1),
         (1, 0, 0),
         (1, 1, 0),
         (1, 0, 0),
         (1, 1, 0),
         (1, 0, 0),
         (1, 1, 0),
         (1, 0, 0),
         (1, 1, 0),
         (1, 0, 0),
         (1, 1, 0),
         (1, 0, 0),
         (1, 1, 0),
         (1, 0, 0),
         (1, 1, 0),
         (1, 0, 0),
         (1, 1, 0),
         (1, 0, 1),
         ((178 >>> 7) &&& 1, 0, 0),
         ((178 >>> 7) &&& 1, 1, 0),
         ((178 >>> 6) &&& 1, 0, 0),
         ((178 >>> 6) &&& 1, 1, 0),
         ((178 >>> 5) &&& 1, 0, 0),
         ((178 >>> 5) &&& 1, 1, 0),
         ((178 >>> 4) &&& 1, 0, 0),
         ((178 >>> 4) &&& 1, 1, 0),
         ((178 >>> 3) &&& 1, 0, 0),
         ((178 >>> 3) &&& 1, 1, 0),
         ((178 >>> 2) &&& 1, 0, 0),
         ((178 >>> 2) &&& 1, 1, 0),
         ((178 >>> 1) &&& 1, 0, 0),
         ((178 >>> 1) &&& 1, 1, 0),
         (178 &&& 1, 0, 0),
         (178 &&& 1, 1, 0),
         (178 &&& 1, 0, 1),
         (0, 0, 0),
         (0, 1, 0),
         (0, 0, 0),
         (0, 1, 0),
         (0, 0, 0),
         (0, 1, 0),
         (0, 0, 0),
         (0, 1, 0),
         (0, 0, 0),
         (0, 1, 0),
         (0, 0, 0),
         (0, 1, 0),
         (0, 0, 0),
         (0, 1, 0),
         (0, 0, 0),
         (0, 1, 0)]) :=
  pio_frame_cycle 178 (by norm_num) [] 0 0 0 0 0

end SmartLedPioSR
